import Mathlib

/-!
Shallow embedding of `src/og-meta.js` (Open Graph meta tag module).

JavaScript strings are modelled as `List Char`.  The host-platform
primitives the module calls (`URLSearchParams`, `decodeURIComponent`,
`parseInt`, DOM `querySelector` / `setAttribute` / `appendChild`) are
modelled from their documented semantics; the repository's own functions
(`parseURLParameters`, `getSeriesData`, `setMetaTag`, `setMetaTags`,
`convertToAbsoluteURL`, `generateOpenGraphContent`,
`initializeOpenGraphTags`) are translated line by line from the source.
-/

namespace OgMeta

/-- JavaScript strings, modelled as lists of unicode characters. -/
abbrev JStr := List Char

/-- Whitespace as recognised by JavaScript `trim` / `parseInt`: the full
ECMAScript WhiteSpace and LineTerminator productions (TAB, LF, VT, FF, CR,
SP, NBSP, OGHAM SPACE MARK, the U+2000-U+200A range, LS, PS, NNBSP, MMSP,
IDEOGRAPHIC SPACE and the BOM). -/
def isJsSpace (c : Char) : Bool :=
  c = '\t' || c = '\n' || c = '\x0b' || c = '\x0c' || c = '\r' || c = ' ' ||
  c = '\u00A0' || c = '\u1680' || decide ('\u2000' ≤ c ∧ c ≤ '\u200A') ||
  c = '\u2028' || c = '\u2029' || c = '\u202F' || c = '\u205F' || c = '\u3000' ||
  c = '\uFEFF'

/-- Model of JavaScript `String.prototype.trim`: drop whitespace at both ends. -/
def jsTrim (s : JStr) : JStr :=
  ((s.dropWhile isJsSpace).reverse.dropWhile isJsSpace).reverse

/-- A JavaScript number as produced by `parseInt(-, 10)`:
an integer, or the `NaN` sentinel. -/
inductive JSNum where
  | int : Int → JSNum
  | nan : JSNum
deriving DecidableEq

/-- JavaScript string conversion of such a number (template-literal interpolation). -/
def jsNumToStr : JSNum → JStr
  | JSNum.int n => (toString n).data
  | JSNum.nan => "NaN".data

/-- The `DEFAULT_META` configuration object (og-meta.js lines 12-19). -/
structure DefaultMeta where
  title : JStr
  description : JStr
  image : JStr
  siteName : JStr
  type : JStr
  twitterCard : JStr

/-- Default meta tag values configuration, copied from the source. -/
def DEFAULT_META : DefaultMeta where
  title := "ZebzeManga - Türkçe Manga Oku".data
  description := "ZebzeManga\x27da en yeni manga ve webtoon serilerini Türkçe okuyun. Güncel bölümler ve geniş arşiv.".data
  image := "https://zebzetoon.vercel.app/logo/zlogo.png".data
  siteName := "Zebze Toon".data
  type := "website".data
  twitterCard := "summary_large_image".data

/-- The result of `parseURLParameters`: `{ seri, bolum }`
(`null` modelled as `none`). -/
structure ParameterSet where
  seri : Option JStr
  bolum : Option JSNum
deriving DecidableEq

/-! ### Model of the platform primitives used by `parseURLParameters` -/

/-- Hexadecimal digit value of a character, `none` if not a hex digit. -/
def hexDigit? (c : Char) : Option Nat :=
  if '0' ≤ c ∧ c ≤ '9' then some (c.toNat - '0'.toNat)
  else if 'a' ≤ c ∧ c ≤ 'f' then some (c.toNat - 'a'.toNat + 10)
  else if 'A' ≤ c ∧ c ≤ 'F' then some (c.toNat - 'A'.toNat + 10)
  else none

/-- Hexadecimal digit value of a byte (used on percent-escaped byte streams). -/
def hexValB? (b : Nat) : Option Nat :=
  if 48 ≤ b ∧ b ≤ 57 then some (b - 48)
  else if 97 ≤ b ∧ b ≤ 102 then some (b - 87)
  else if 65 ≤ b ∧ b ≤ 70 then some (b - 55)
  else none

/-- UTF-8 encoding of one character, as a byte list. -/
def utf8EncodeChar (c : Char) : List Nat :=
  if c.toNat < 0x80 then [c.toNat]
  else if c.toNat < 0x800 then [0xC0 + c.toNat / 64, 0x80 + c.toNat % 64]
  else if c.toNat < 0x10000 then
    [0xE0 + c.toNat / 4096, 0x80 + (c.toNat / 64) % 64, 0x80 + c.toNat % 64]
  else
    [0xF0 + c.toNat / 262144, 0x80 + (c.toNat / 4096) % 64, 0x80 + (c.toNat / 64) % 64,
     0x80 + c.toNat % 64]

/-- UTF-8 encoding of a string. -/
def toBytes (s : JStr) : List Nat :=
  s.flatMap utf8EncodeChar

/-- Is this byte a UTF-8 continuation byte? -/
def contB (b : Nat) : Bool :=
  decide (0x80 ≤ b ∧ b < 0xC0)

/-- The U+FFFD replacement character. -/
def fffdChar : Char := '�'

/-- Lossy UTF-8 decoding (invalid sequences become U+FFFD), fuelled so that
the recursion is structural.  The fuel is always at least the input length. -/
def utf8DecodeLossyF : Nat → List Nat → List Char
  | 0, _ => []
  | _ + 1, [] => []
  | fuel + 1, b :: rest =>
    if b < 0x80 then Char.ofNat b :: utf8DecodeLossyF fuel rest
    else if 0xC2 ≤ b ∧ b ≤ 0xDF then
      match rest with
      | b2 :: rest2 =>
        if contB b2 then
          Char.ofNat ((b - 0xC0) * 64 + (b2 - 0x80)) :: utf8DecodeLossyF fuel rest2
        else fffdChar :: utf8DecodeLossyF fuel rest
      | [] => [fffdChar]
    else if 0xE0 ≤ b ∧ b ≤ 0xEF then
      match rest with
      | b2 :: b3 :: rest3 =>
        if contB b2 && contB b3 then
          let v := (b - 0xE0) * 4096 + (b2 - 0x80) * 64 + (b3 - 0x80)
          (if 0x800 ≤ v ∧ ¬(0xD800 ≤ v ∧ v ≤ 0xDFFF) then Char.ofNat v else fffdChar) ::
            utf8DecodeLossyF fuel rest3
        else fffdChar :: utf8DecodeLossyF fuel rest
      | _ => [fffdChar]
    else if 0xF0 ≤ b ∧ b ≤ 0xF4 then
      match rest with
      | b2 :: b3 :: b4 :: rest4 =>
        if contB b2 && contB b3 && contB b4 then
          let v := (b - 0xF0) * 262144 + (b2 - 0x80) * 4096 + (b3 - 0x80) * 64 + (b4 - 0x80)
          (if 0x10000 ≤ v ∧ v ≤ 0x10FFFF then Char.ofNat v else fffdChar) ::
            utf8DecodeLossyF fuel rest4
        else fffdChar :: utf8DecodeLossyF fuel rest
      | _ => [fffdChar]
    else fffdChar :: utf8DecodeLossyF fuel rest

/-- Lossy UTF-8 decoding of a byte list. -/
def utf8DecodeLossy (bs : List Nat) : List Char :=
  utf8DecodeLossyF bs.length bs

/-- WHATWG `application/x-www-form-urlencoded` byte-level decoding, as done by
`URLSearchParams`: `+` becomes a space, well-formed `%hh` escapes are decoded,
and a malformed `%` is copied through literally (it never throws). -/
def formDecodeBytes : List Nat → List Nat
  | [] => []
  | 0x2B :: rest => 0x20 :: formDecodeBytes rest
  | 0x25 :: b1 :: b2 :: rest =>
    match hexValB? b1, hexValB? b2 with
    | some h, some l => (16 * h + l) :: formDecodeBytes rest
    | _, _ => 0x25 :: formDecodeBytes (b1 :: b2 :: rest)
  | b :: rest => b :: formDecodeBytes rest

/-- Full `URLSearchParams` decoding of one token: UTF-8 encode, percent/plus
decode at byte level, then lossy UTF-8 decode. -/
def formDecode (s : JStr) : JStr :=
  utf8DecodeLossy (formDecodeBytes (toBytes s))

/-- Split a query string on `&` (the `URLSearchParams` pair separator). -/
def splitAmp (s : JStr) : List JStr :=
  s.foldr
    (fun c acc =>
      if c = '&' then [] :: acc
      else
        match acc with
        | [] => [[c]]
        | g :: gs => (c :: g) :: gs)
    [[]]

/-- Drop a single leading `?`, as the `URLSearchParams` constructor does. -/
def stripLeadingQ : JStr → JStr
  | '?' :: rest => rest
  | s => s

/-- The raw (still encoded) key/value pairs of a query string: split on `&`,
skip empty segments, split each segment at its first `=`. -/
def pairsOf (search : JStr) : List (JStr × JStr) :=
  (splitAmp (stripLeadingQ search)).filterMap fun seg =>
    if seg.isEmpty then none
    else some (seg.takeWhile (fun c => c != '='), (seg.dropWhile (fun c => c != '=')).drop 1)

/-- Model of `URLSearchParams.get`: the decoded value of the first pair whose
decoded key matches, or `none`. -/
def uspGet (search : JStr) (key : JStr) : Option JStr :=
  ((pairsOf search).find? fun p => formDecode p.1 == key).map fun p => formDecode p.2

/-- The raw (still encoded) value of the first pair whose decoded key matches. -/
def uspGetRaw (search : JStr) (key : JStr) : Option JStr :=
  ((pairsOf search).find? fun p => formDecode p.1 == key).map fun p => p.2

/-- Collect `n` further percent-escaped bytes (`%hh` each), as
`decodeURIComponent` requires for continuation bytes; `none` on malformation. -/
def takeEscapedBytes : Nat → JStr → Option (List Nat × JStr)
  | 0, s => some ([], s)
  | n + 1, '%' :: c1 :: c2 :: rest =>
    match hexDigit? c1, hexDigit? c2 with
    | some h, some l => (takeEscapedBytes n rest).map fun p => ((16 * h + l) :: p.1, p.2)
    | _, _ => none
  | _ + 1, _ => none

/-- Model of ECMAScript `decodeURIComponent`, fuelled so the recursion is
structural; `none` models a thrown `URIError` (malformed percent escape or
invalid UTF-8 sequence).  The fuel is always at least the input length. -/
def decodeURIComponentF : Nat → JStr → Option JStr
  | 0, _ => some []
  | _ + 1, [] => some []
  | fuel + 1, c :: rest =>
    if c = '%' then
      match rest with
      | c1 :: c2 :: rest2 =>
        match hexDigit? c1, hexDigit? c2 with
        | some h, some l =>
          let b := 16 * h + l
          if b < 0x80 then
            (decodeURIComponentF fuel rest2).map (Char.ofNat b :: ·)
          else if 0xC2 ≤ b ∧ b ≤ 0xDF then
            match takeEscapedBytes 1 rest2 with
            | some ([b2], rest3) =>
              if contB b2 then
                (decodeURIComponentF fuel rest3).map
                  (Char.ofNat ((b - 0xC0) * 64 + (b2 - 0x80)) :: ·)
              else none
            | _ => none
          else if 0xE0 ≤ b ∧ b ≤ 0xEF then
            match takeEscapedBytes 2 rest2 with
            | some ([b2, b3], rest3) =>
              if contB b2 && contB b3 then
                let v := (b - 0xE0) * 4096 + (b2 - 0x80) * 64 + (b3 - 0x80)
                if 0x800 ≤ v ∧ ¬(0xD800 ≤ v ∧ v ≤ 0xDFFF) then
                  (decodeURIComponentF fuel rest3).map (Char.ofNat v :: ·)
                else none
              else none
            | _ => none
          else if 0xF0 ≤ b ∧ b ≤ 0xF4 then
            match takeEscapedBytes 3 rest2 with
            | some ([b2, b3, b4], rest3) =>
              if contB b2 && contB b3 && contB b4 then
                let v := (b - 0xF0) * 262144 + (b2 - 0x80) * 4096 + (b3 - 0x80) * 64 + (b4 - 0x80)
                if 0x10000 ≤ v ∧ v ≤ 0x10FFFF then
                  (decodeURIComponentF fuel rest3).map (Char.ofNat v :: ·)
                else none
              else none
            | _ => none
          else none
        | _, _ => none
      | _ => none
    else (decodeURIComponentF fuel rest).map (c :: ·)

/-- Model of ECMAScript `decodeURIComponent`; `none` models a thrown `URIError`. -/
def decodeURIComponent (s : JStr) : Option JStr :=
  decodeURIComponentF s.length s

/-- Drop one optional leading sign, as `parseInt` allows. -/
def stripSignJs : JStr → JStr
  | '-' :: r => r
  | '+' :: r => r
  | r => r

/-- The sign `parseInt` reads from one optional leading sign character. -/
def signJs : JStr → Int
  | '-' :: _ => -1
  | _ => 1

/-- Model of JavaScript `parseInt(s, 10)`: skip leading whitespace, read an
optional sign, then the longest decimal-digit run; `NaN` if there is none. -/
def parseInt10 (s : JStr) : JSNum :=
  let t := s.dropWhile isJsSpace
  let digits := (stripSignJs t).takeWhile fun c => decide ('0' ≤ c ∧ c ≤ '9')
  if digits.isEmpty then JSNum.nan
  else JSNum.int (signJs t * (digits.foldl (fun a c => 10 * a + (c.toNat - '0'.toNat)) 0 : Nat))

/-- Does `parseInt(v, 10)` find a numeric prefix in `v`?  (`false` means the
parse yields the `NaN` sentinel.) -/
def hasIntLead (s : JStr) : Bool :=
  !((stripSignJs (s.dropWhile isJsSpace)).takeWhile fun c => decide ('0' ≤ c ∧ c ≤ '9')).isEmpty

/-! ### The repository's own functions -/

/-- The `seri` computation of `parseURLParameters` (og-meta.js lines 34-35):
`seriParam ? decodeURIComponent(seriParam) : null`.  The outer `none` models a
`URIError` thrown by `decodeURIComponent`. -/
def seriOf (search : JStr) : Option (Option JStr) :=
  match uspGet search "seri".data with
  | none => some none
  | some v =>
    if v.isEmpty then some none
    else
      match decodeURIComponent v with
      | some d => some (some d)
      | none => none

/-- The `bolum` computation of `parseURLParameters` (og-meta.js lines 38-39):
`bolumParam ? parseInt(bolumParam, 10) : null`. -/
def bolumOf (search : JStr) : Option JSNum :=
  match uspGet search "bolum".data with
  | none => none
  | some v => if v.isEmpty then none else some (parseInt10 v)

/-- `parseURLParameters` (og-meta.js lines 30-42), over an explicit query
string; the outer `none` models a thrown `URIError` escaping the function. -/
def parseURLParameters (search : JStr) : Option ParameterSet :=
  match seriOf search with
  | none => none
  | some seri => some { seri := seri, bolum := bolumOf search }

/-- One series record (`ARSIV[name].meta`): `{ kapak, ozet, yazar, banner }`. -/
structure SeriesRecord where
  kapak : Option JStr
  ozet : Option JStr
  yazar : Option JStr
  banner : Option JStr
deriving DecidableEq

/-- One `ARSIV` entry: an object that may carry a `meta` sub-object. -/
structure SeriesEntry where
  meta : Option SeriesRecord
deriving DecidableEq

/-- The global `ARSIV` catalog: `none` models an absent / non-object
reference, `some` an object given as its key/entry pairs. -/
abbrev Catalog := Option (List (JStr × SeriesEntry))

/-- `getSeriesData` (og-meta.js lines 54-69). -/
def getSeriesData : Catalog → JStr → Option SeriesRecord
  | none, _ => none
  | some entries, seriesName =>
    if entries.length = 0 then none
    else
      match entries.find? (fun e => e.1 == seriesName) with
      | none => none
      | some entry => entry.2.meta

/-- Truthiness of the `seri` field (`null` and the empty string are falsy). -/
def seriTruthy : Option JStr → Bool
  | none => false
  | some s => !s.isEmpty

/-- `convertToAbsoluteURL` (og-meta.js lines 154-169); `none` models a
`null`/`undefined` argument. -/
def convertToAbsoluteURL : Option JStr → JStr
  | none => DEFAULT_META.image
  | some u =>
    if u.isEmpty || (jsTrim u).isEmpty then DEFAULT_META.image
    else if "http://".data.isPrefixOf u || "https://".data.isPrefixOf u then u
    else
      let cleanUrl := if u.head? = some '/' then u.drop 1 else u
      "https://zebzetoon.vercel.app/".data ++ cleanUrl

/-- One meta tag definition `{ property, content }`. -/
structure TagDefinition where
  property : JStr
  content : JStr
deriving DecidableEq

/-- The `title` computation of `generateOpenGraphContent` (og-meta.js lines
199-210): `params.seri && params.bolum !== null` takes the chapter branch,
`params.seri` alone the series branch, otherwise the default title. -/
def ogTitle (params : ParameterSet) : JStr :=
  if seriTruthy params.seri && params.bolum.isSome then
    (params.seri.getD []) ++ " - Bölüm ".data ++ jsNumToStr (params.bolum.getD JSNum.nan)
  else if seriTruthy params.seri then
    params.seri.getD []
  else
    DEFAULT_META.title

/-- The `description` computation of `generateOpenGraphContent` (og-meta.js
lines 213-215): `seriesData && seriesData.ozet` or the default. -/
def ogDescription : Option SeriesRecord → JStr
  | some sd =>
    match sd.ozet with
    | some o => if o.isEmpty then DEFAULT_META.description else o
    | none => DEFAULT_META.description
  | none => DEFAULT_META.description

/-- The `imageUrl` computation of `generateOpenGraphContent` (og-meta.js lines
218-223): `seriesData && seriesData.kapak` converted to absolute, or the default. -/
def ogImageUrl : Option SeriesRecord → JStr
  | some sd =>
    match sd.kapak with
    | some k => if k.isEmpty then DEFAULT_META.image else convertToAbsoluteURL (some k)
    | none => DEFAULT_META.image
  | none => DEFAULT_META.image

/-- `generateOpenGraphContent` (og-meta.js lines 196-243), over an explicit
`window.location.href` value. -/
def generateOpenGraphContent (params : ParameterSet) (seriesData : Option SeriesRecord)
    (pageUrl : JStr) : List TagDefinition :=
  let title := ogTitle params
  let description := ogDescription seriesData
  let imageUrl := ogImageUrl seriesData
  [⟨"og:title".data, title⟩,
   ⟨"og:description".data, description⟩,
   ⟨"og:image".data, imageUrl⟩,
   ⟨"og:url".data, pageUrl⟩,
   ⟨"og:type".data, DEFAULT_META.type⟩,
   ⟨"og:site_name".data, DEFAULT_META.siteName⟩,
   ⟨"twitter:card".data, DEFAULT_META.twitterCard⟩,
   ⟨"twitter:title".data, title⟩,
   ⟨"twitter:description".data, description⟩,
   ⟨"twitter:image".data, imageUrl⟩]

/-! ### Model of the document head and the Tag Applier -/

/-- Which attribute a meta element carries its key under. -/
inductive AttrKind where
  | property
  | name
deriving DecidableEq

/-- One `<meta>` element of the document head. -/
structure MetaElem where
  attr : AttrKind
  key : JStr
  content : JStr
deriving DecidableEq

/-- The observable shape of an element: its attribute kind and key. -/
def elemShape (e : MetaElem) : AttrKind × JStr :=
  (e.attr, e.key)

/-- Does this shape match `meta[property="k"]`? -/
def shapeMatchesProp (k : JStr) (sh : AttrKind × JStr) : Bool :=
  sh.1 == AttrKind.property && sh.2 == k

/-- Does this shape match `meta[name="k"]`? -/
def shapeMatchesName (k : JStr) (sh : AttrKind × JStr) : Bool :=
  sh.1 == AttrKind.name && sh.2 == k

/-- Does this element match `meta[property="k"]`? -/
def matchesProp (k : JStr) (e : MetaElem) : Bool :=
  shapeMatchesProp k (elemShape e)

/-- Does this element match `meta[name="k"]`? -/
def matchesName (k : JStr) (e : MetaElem) : Bool :=
  shapeMatchesName k (elemShape e)

/-- Index of the first element satisfying `p` (document order), as
`querySelector` returns the first match. -/
def findIdxO (p : MetaElem → Bool) : List MetaElem → Option Nat
  | [] => none
  | e :: rest => if p e then some 0 else (findIdxO p rest).map (· + 1)

/-- Overwrite the `content` attribute of the element at position `i`
(in-place mutation of an existing element). -/
def setContentAt : List MetaElem → Nat → JStr → List MetaElem
  | [], _, _ => []
  | e :: rest, 0, c => { e with content := c } :: rest
  | e :: rest, n + 1, c => e :: setContentAt rest n c

/-- The element `setMetaTag` creates when no existing tag matches. -/
def newMetaElem (k c : JStr) : MetaElem where
  attr := if "og:".data.isPrefixOf k then AttrKind.property else AttrKind.name
  key := k
  content := c

/-- `setMetaTag` (og-meta.js lines 87-108): query by `property` attribute,
fall back to `name`, overwrite the content if found, otherwise create a new
element (attribute kind chosen by the `og:` prefix) and append it. -/
def setMetaTag (k c : JStr) (head : List MetaElem) : List MetaElem :=
  match findIdxO (matchesProp k) head with
  | some i => setContentAt head i c
  | none =>
    match findIdxO (matchesName k) head with
    | some i => setContentAt head i c
    | none => head ++ [newMetaElem k c]

/-- `setMetaTags` (og-meta.js lines 127-131): apply each definition in order. -/
def setMetaTags (tagDefinitions : List TagDefinition) (head : List MetaElem) : List MetaElem :=
  tagDefinitions.foldl (fun h t => setMetaTag t.property t.content h) head

/-- `initializeOpenGraphTags` (og-meta.js lines 262-284), over an explicit
query string, page URL, catalog and document head.  The outer `none` models
an exception thrown upstream of the write phase (the head is then untouched). -/
def initializeOpenGraphTags (search pageUrl : JStr) (arsiv : Catalog)
    (head : List MetaElem) : Option (List MetaElem) :=
  match parseURLParameters search with
  | none => none
  | some params =>
    let seriesData :=
      if seriTruthy params.seri then getSeriesData arsiv (params.seri.getD []) else none
    let metaTags := generateOpenGraphContent params seriesData pageUrl
    some (setMetaTags metaTags head)

/-! ### Helper lemmas about the URL normalizer and the synthesized values -/

theorem jsTrim_cons_ne_nil {c : Char} (p : JStr) (hc : isJsSpace c = false) :
    jsTrim (c :: p) ≠ [] := by
  unfold jsTrim
  rw [List.dropWhile_cons]
  simp only [hc, Bool.false_eq_true, if_false]
  intro h
  rw [List.reverse_eq_nil_iff, List.dropWhile_eq_nil_iff] at h
  have hx := h c (by simp)
  simp [hc] at hx

theorem head_of_http {u : JStr} (h : "http://".data.isPrefixOf u = true) :
    ∃ t, u = 'h' :: t := by
  obtain ⟨t, rfl⟩ := List.isPrefixOf_iff_prefix.mp h
  exact ⟨"ttp://".data ++ t, rfl⟩

theorem head_of_https {u : JStr} (h : "https://".data.isPrefixOf u = true) :
    ∃ t, u = 'h' :: t := by
  obtain ⟨t, rfl⟩ := List.isPrefixOf_iff_prefix.mp h
  exact ⟨"ttps://".data ++ t, rfl⟩

theorem convertToAbsoluteURL_ne_nil (url : Option JStr) : convertToAbsoluteURL url ≠ [] := by
  cases url with
  | none => decide
  | some u =>
    simp only [convertToAbsoluteURL]
    by_cases h1 : (u.isEmpty || (jsTrim u).isEmpty) = true
    · rw [if_pos h1]; decide
    · rw [if_neg h1]
      by_cases h2 : ("http://".data.isPrefixOf u || "https://".data.isPrefixOf u) = true
      · rw [if_pos h2]
        intro hu
        apply h1
        simp [hu]
      · rw [if_neg h2]
        intro hcontra
        exact absurd (List.append_eq_nil.mp hcontra).1 (by decide)

theorem ogTitle_ne_nil (params : ParameterSet) : ogTitle params ≠ [] := by
  unfold ogTitle
  by_cases h1 : (seriTruthy params.seri && params.bolum.isSome) = true
  · rw [if_pos h1]
    intro hcontra
    have h3 := (List.append_eq_nil.mp hcontra).1
    exact absurd (List.append_eq_nil.mp h3).2 (by decide)
  · rw [if_neg h1]
    by_cases h2 : seriTruthy params.seri = true
    · rw [if_pos h2]
      cases hseri : params.seri with
      | none =>
        have h2n : seriTruthy (none : Option JStr) = true := by rw [← hseri]; exact h2
        exact absurd h2n (by decide)
      | some s =>
        simp only [Option.getD_some]
        have h2s : seriTruthy (some s) = true := by rw [← hseri]; exact h2
        simp only [seriTruthy] at h2s
        simpa using h2s
    · rw [if_neg h2]; decide

theorem ogDescription_ne_nil (sd : Option SeriesRecord) : ogDescription sd ≠ [] := by
  cases sd with
  | none => decide
  | some r =>
    obtain ⟨k, o, y, b⟩ := r
    cases o with
    | none => simp only [ogDescription]; decide
    | some o =>
      simp only [ogDescription]
      by_cases he : o.isEmpty = true
      · rw [if_pos he]; decide
      · rw [if_neg he]
        simpa using he

theorem ogImageUrl_ne_nil (sd : Option SeriesRecord) : ogImageUrl sd ≠ [] := by
  cases sd with
  | none => decide
  | some r =>
    obtain ⟨k, o, y, b⟩ := r
    cases k with
    | none => simp only [ogImageUrl]; decide
    | some k =>
      simp only [ogImageUrl]
      by_cases he : k.isEmpty = true
      · rw [if_pos he]; decide
      · rw [if_neg he]
        exact convertToAbsoluteURL_ne_nil (some k)

/-! ### Claim theorems, first group -/

/-- Claim C1: for every `ParameterSet` (including both fields absent) and every
catalog resolution result (including not-found), `generateOpenGraphContent`
returns exactly 10 `TagDefinition`s, in the fixed order og:title,
og:description, og:image, og:url, og:type, og:site_name, twitter:card,
twitter:title, twitter:description, twitter:image, and the title, description
and image values are non-empty strings. -/
theorem c1_content_synthesizer (params : ParameterSet) (sd : Option SeriesRecord)
    (pageUrl : JStr) :
    generateOpenGraphContent params sd pageUrl =
      [⟨"og:title".data, ogTitle params⟩,
       ⟨"og:description".data, ogDescription sd⟩,
       ⟨"og:image".data, ogImageUrl sd⟩,
       ⟨"og:url".data, pageUrl⟩,
       ⟨"og:type".data, DEFAULT_META.type⟩,
       ⟨"og:site_name".data, DEFAULT_META.siteName⟩,
       ⟨"twitter:card".data, DEFAULT_META.twitterCard⟩,
       ⟨"twitter:title".data, ogTitle params⟩,
       ⟨"twitter:description".data, ogDescription sd⟩,
       ⟨"twitter:image".data, ogImageUrl sd⟩] ∧
    (generateOpenGraphContent params sd pageUrl).length = 10 ∧
    ogTitle params ≠ [] ∧ ogDescription sd ≠ [] ∧ ogImageUrl sd ≠ [] :=
  ⟨rfl, rfl, ogTitle_ne_nil params, ogDescription_ne_nil sd, ogImageUrl_ne_nil sd⟩

/-- Claim C2: the synthesized title takes a three-way branch, first match
winning: series present and chapter present-and-not-absent gives
`"{series} - Bölüm {chapter}"`; series present and chapter absent gives the
series name; series absent gives `DEFAULT_META.title`; in particular for
series "Ölüm Paktı" and chapter 8 it is "Ölüm Paktı - Bölüm 8", with chapter
absent "Ölüm Paktı", and with no series `DEFAULT_META.title`. -/
theorem c2_title_branching :
    (∀ s : JStr, s ≠ [] → ∀ b : JSNum,
       ogTitle ⟨some s, some b⟩ = s ++ " - Bölüm ".data ++ jsNumToStr b)
  ∧ (∀ s : JStr, s ≠ [] → ogTitle ⟨some s, none⟩ = s)
  ∧ (∀ b : Option JSNum, ogTitle ⟨none, b⟩ = DEFAULT_META.title)
  ∧ ogTitle ⟨some "Ölüm Paktı".data, some (JSNum.int 8)⟩ = "Ölüm Paktı - Bölüm 8".data
  ∧ ogTitle ⟨some "Ölüm Paktı".data, none⟩ = "Ölüm Paktı".data
  ∧ (∀ params sd pageUrl, (generateOpenGraphContent params sd pageUrl).head? =
       some ⟨"og:title".data, ogTitle params⟩) := by
  refine ⟨?_, ?_, ?_, by decide, by decide, fun _ _ _ => rfl⟩
  · intro s hs b
    have h : s.isEmpty = false := by simpa using hs
    simp [ogTitle, seriTruthy, h]
  · intro s hs
    have h : s.isEmpty = false := by simpa using hs
    simp [ogTitle, seriTruthy, h]
  · intro b
    simp [ogTitle, seriTruthy]

/-- Witness for C2 at concrete inputs. -/
theorem c2_title_branching_witness :
    ogTitle ⟨some "Ölüm Paktı".data, some (JSNum.int 8)⟩ =
      "Ölüm Paktı".data ++ " - Bölüm ".data ++ jsNumToStr (JSNum.int 8)
  ∧ ogTitle ⟨some "Zebze".data, none⟩ = "Zebze".data :=
  ⟨c2_title_branching.1 "Ölüm Paktı".data (by decide) (JSNum.int 8),
   c2_title_branching.2.1 "Zebze".data (by decide)⟩

/-- Claim C10: chapter presence in the title branch is decided by comparison
against `null`, not truthiness: with series present, every integer chapter,
including 0 and negative values, takes the first branch, so chapter 0 yields
`"{series} - Bölüm 0"`, not the bare series title. -/
theorem c10_chapter_zero :
    (∀ s : JStr, s ≠ [] → ∀ n : Int,
       ogTitle ⟨some s, some (JSNum.int n)⟩ = s ++ " - Bölüm ".data ++ jsNumToStr (JSNum.int n))
  ∧ (∀ s : JStr, s ≠ [] → ogTitle ⟨some s, some (JSNum.int 0)⟩ = s ++ " - Bölüm 0".data)
  ∧ ogTitle ⟨some "Ölüm Paktı".data, some (JSNum.int 0)⟩ = "Ölüm Paktı - Bölüm 0".data := by
  have h1 : ∀ s : JStr, s ≠ [] → ∀ n : Int,
      ogTitle ⟨some s, some (JSNum.int n)⟩ = s ++ " - Bölüm ".data ++ jsNumToStr (JSNum.int n) := by
    intro s hs n
    have h : s.isEmpty = false := by simpa using hs
    simp [ogTitle, seriTruthy, h]
  refine ⟨h1, ?_, by decide⟩
  intro s hs
  rw [h1 s hs 0, List.append_assoc]
  congr 1

/-- Witness for C10 at a concrete input. -/
theorem c10_chapter_zero_witness :
    ogTitle ⟨some "Zebze".data, some (JSNum.int 0)⟩ = "Zebze".data ++ " - Bölüm 0".data :=
  c10_chapter_zero.2.1 "Zebze".data (by decide)

/-- Claim C5: in every synthesized tag list, the twitter:title value equals the
og:title value, twitter:description equals og:description, and twitter:image
equals og:image. -/
theorem c5_twitter_mirroring (params : ParameterSet) (sd : Option SeriesRecord)
    (pageUrl : JStr) :
    ∃ title description image,
      (generateOpenGraphContent params sd pageUrl)[0]? = some ⟨"og:title".data, title⟩ ∧
      (generateOpenGraphContent params sd pageUrl)[7]? = some ⟨"twitter:title".data, title⟩ ∧
      (generateOpenGraphContent params sd pageUrl)[1]? = some ⟨"og:description".data, description⟩ ∧
      (generateOpenGraphContent params sd pageUrl)[8]? = some ⟨"twitter:description".data, description⟩ ∧
      (generateOpenGraphContent params sd pageUrl)[2]? = some ⟨"og:image".data, image⟩ ∧
      (generateOpenGraphContent params sd pageUrl)[9]? = some ⟨"twitter:image".data, image⟩ :=
  ⟨ogTitle params, ogDescription sd, ogImageUrl sd, rfl, rfl, rfl, rfl, rfl, rfl⟩

/-- Claim C4: `convertToAbsoluteURL` maps an absent input to the default image;
returns any input beginning with http:// or https:// unchanged; and for every
relative path a single leading "/" is irrelevant, both forms giving the fixed
base origin concatenated with the path. -/
theorem c4_url_normalizer :
    convertToAbsoluteURL none = DEFAULT_META.image
  ∧ (∀ u : JStr, ("http://".data.isPrefixOf u || "https://".data.isPrefixOf u) = true →
       convertToAbsoluteURL (some u) = u)
  ∧ (∀ p : JStr, "http://".data.isPrefixOf p = false → "https://".data.isPrefixOf p = false →
       p.head? ≠ some '/' → jsTrim p ≠ [] →
       convertToAbsoluteURL (some ('/' :: p)) = convertToAbsoluteURL (some p) ∧
       convertToAbsoluteURL (some p) = "https://zebzetoon.vercel.app/".data ++ p) := by
  refine ⟨rfl, ?_, ?_⟩
  · intro u hu
    have hh : ∃ t, u = 'h' :: t := by
      rcases Bool.or_eq_true_iff.mp hu with h | h
      · exact head_of_http h
      · exact head_of_https h
    obtain ⟨t, rfl⟩ := hh
    simp only [convertToAbsoluteURL]
    rw [if_neg, if_pos hu]
    intro hcontra
    rcases Bool.or_eq_true_iff.mp hcontra with h | h
    · simp at h
    · exact absurd h (by simpa using jsTrim_cons_ne_nil t (by decide))
  · intro p hp1 hp2 hp3 hp4
    have hslash : convertToAbsoluteURL (some ('/' :: p)) = "https://zebzetoon.vercel.app/".data ++ p := by
      simp only [convertToAbsoluteURL]
      rw [if_neg, if_neg]
      · simp
      · intro hcontra
        rcases Bool.or_eq_true_iff.mp hcontra with h | h
        · have := head_of_http h
          simp at this
        · have := head_of_https h
          simp at this
      · intro hcontra
        rcases Bool.or_eq_true_iff.mp hcontra with h | h
        · simp at h
        · exact absurd h (by simpa using jsTrim_cons_ne_nil p (by decide))
    have hplain : convertToAbsoluteURL (some p) = "https://zebzetoon.vercel.app/".data ++ p := by
      simp only [convertToAbsoluteURL]
      have hpne : p ≠ [] := by
        intro h
        rw [h] at hp4
        exact hp4 rfl
      rw [if_neg, if_neg]
      · rw [if_neg hp3]
      · rw [hp1, hp2]
        decide
      · intro hcontra
        rcases Bool.or_eq_true_iff.mp hcontra with h | h
        · exact absurd (by simpa using h) hpne
        · exact absurd (by simpa using h) hp4
    exact ⟨hslash.trans hplain.symm, hplain⟩

/-- Witness for C4 at concrete inputs. -/
theorem c4_url_normalizer_witness :
    convertToAbsoluteURL (some "https://x/y".data) = "https://x/y".data
  ∧ convertToAbsoluteURL (some "/a/b".data) = convertToAbsoluteURL (some "a/b".data)
  ∧ convertToAbsoluteURL (some "a/b".data) = "https://zebzetoon.vercel.app/".data ++ "a/b".data :=
  ⟨c4_url_normalizer.2.1 "https://x/y".data (by decide),
   (c4_url_normalizer.2.2 "a/b".data (by decide) (by decide) (by decide) (by decide)).1,
   (c4_url_normalizer.2.2 "a/b".data (by decide) (by decide) (by decide) (by decide)).2⟩

/-- Claim C8: `convertToAbsoluteURL` is total over possibly-absent strings and
always returns a non-empty string (absent, empty, whitespace-only, relative
and absolute inputs included). -/
theorem c8_url_normalizer_totality (url : Option JStr) : convertToAbsoluteURL url ≠ [] :=
  convertToAbsoluteURL_ne_nil url

/-- Claim C6: `getSeriesData` returns not-found (`none`) exactly when the
catalog reference is empty or uninitialized, or no entry exists under the
exact case-sensitive series name, or the entry carries no metadata sub-object;
otherwise it returns the entry's metadata sub-object unchanged. -/
theorem c6_catalog_resolver :
    (∀ name, getSeriesData none name = none)
  ∧ (∀ entries name, getSeriesData (some entries) name = none ↔
      (entries = [] ∨ entries.find? (fun e => e.1 == name) = none ∨
       ∃ en, entries.find? (fun e => e.1 == name) = some en ∧ en.2.meta = none))
  ∧ (∀ (entries : List (JStr × SeriesEntry)) (name : JStr),
       entries.find? (fun e => e.1 == name) = none ↔ ∀ e ∈ entries, e.1 ≠ name)
  ∧ (∀ entries name en r, entries.find? (fun e => e.1 == name) = some en →
       en.2.meta = some r → getSeriesData (some entries) name = some r) := by
  refine ⟨fun _ => rfl, ?_, ?_, ?_⟩
  · intro entries name
    constructor
    · intro h
      simp only [getSeriesData] at h
      by_cases hlen : entries.length = 0
      · exact Or.inl (List.length_eq_zero.mp hlen)
      · rw [if_neg hlen] at h
        cases hf : entries.find? (fun e => e.1 == name) with
        | none => exact Or.inr (Or.inl rfl)
        | some en =>
          rw [hf] at h
          exact Or.inr (Or.inr ⟨en, rfl, h⟩)
    · intro h
      simp only [getSeriesData]
      rcases h with rfl | hf | ⟨en, hf, hm⟩
      · rfl
      · by_cases hlen : entries.length = 0
        · rw [if_pos hlen]
        · rw [if_neg hlen, hf]
      · by_cases hlen : entries.length = 0
        · rw [if_pos hlen]
        · rw [if_neg hlen, hf]
          exact hm
  · intro entries name
    rw [List.find?_eq_none]
    constructor
    · intro h e he
      simpa using h e he
    · intro h e he
      simp [h e he]
  · intro entries name en r hf hm
    simp only [getSeriesData]
    have hne : entries ≠ [] := by
      intro h
      rw [h] at hf
      simp at hf
    rw [if_neg (by simpa [List.length_eq_zero] using hne), hf]
    exact hm

/-- Witness for C6 at a concrete catalog. -/
theorem c6_catalog_resolver_witness :
    getSeriesData
      (some [("Ölüm Paktı".data, ⟨some ⟨some "kapak.jpg".data, some "ozet".data, none, none⟩⟩)])
      "Ölüm Paktı".data = some ⟨some "kapak.jpg".data, some "ozet".data, none, none⟩
  ∧ getSeriesData none "Ölüm Paktı".data = none :=
  ⟨c6_catalog_resolver.2.2.2
      [("Ölüm Paktı".data, ⟨some ⟨some "kapak.jpg".data, some "ozet".data, none, none⟩⟩)]
      "Ölüm Paktı".data
      ("Ölüm Paktı".data, ⟨some ⟨some "kapak.jpg".data, some "ozet".data, none, none⟩⟩)
      ⟨some "kapak.jpg".data, some "ozet".data, none, none⟩
      (by decide) rfl,
   c6_catalog_resolver.1 "Ölüm Paktı".data⟩

/-! ### Helper lemmas about the parameter extractor -/

theorem utf8EncodeChar_ne_nil (c : Char) : utf8EncodeChar c ≠ [] := by
  unfold utf8EncodeChar
  repeat' split
  all_goals simp

theorem toBytes_eq_nil_iff (s : JStr) : toBytes s = [] ↔ s = [] := by
  cases s with
  | nil => simp [toBytes]
  | cons c t =>
    simp only [toBytes, List.flatMap_cons, List.append_eq_nil]
    constructor
    · intro h
      exact absurd h.1 (utf8EncodeChar_ne_nil c)
    · intro h
      cases h

theorem formDecodeBytes_ne_nil (bs : List Nat) (h : bs ≠ []) : formDecodeBytes bs ≠ [] := by
  rw [formDecodeBytes.eq_def]
  split
  · exact absurd rfl h
  · simp
  · split <;> simp
  · simp

theorem utf8DecodeLossyF_ne_nil (fuel : Nat) (b : Nat) (rest : List Nat) :
    utf8DecodeLossyF (fuel + 1) (b :: rest) ≠ [] := by
  simp only [utf8DecodeLossyF]
  repeat' split
  all_goals simp

theorem utf8DecodeLossy_ne_nil (bs : List Nat) (h : bs ≠ []) : utf8DecodeLossy bs ≠ [] := by
  cases bs with
  | nil => exact absurd rfl h
  | cons b rest =>
    unfold utf8DecodeLossy
    simp only [List.length_cons]
    exact utf8DecodeLossyF_ne_nil rest.length b rest

theorem formDecode_eq_nil_iff (s : JStr) : formDecode s = [] ↔ s = [] := by
  constructor
  · intro h
    by_contra hs
    exact utf8DecodeLossy_ne_nil _
      (formDecodeBytes_ne_nil _ (fun hb => hs ((toBytes_eq_nil_iff s).mp hb))) h
  · intro h
    subst h
    rfl

theorem uspGet_none_iff (search key : JStr) :
    uspGet search key = none ↔ uspGetRaw search key = none := by
  unfold uspGet uspGetRaw
  cases (pairsOf search).find? (fun p => formDecode p.1 == key) <;> simp

theorem uspGetRaw_of_uspGet {search key v : JStr} (h : uspGet search key = some v) :
    ∃ rv, uspGetRaw search key = some rv ∧ formDecode rv = v := by
  unfold uspGet at h
  unfold uspGetRaw
  cases hf : (pairsOf search).find? (fun p => formDecode p.1 == key) with
  | none => rw [hf] at h; cases h
  | some p =>
    rw [hf] at h
    injection h with h'
    exact ⟨p.2, rfl, h'⟩

theorem seriOf_eq_none_iff (search : JStr) :
    seriOf search = none ↔
      ∃ v, uspGet search "seri".data = some v ∧ v ≠ [] ∧ decodeURIComponent v = none := by
  unfold seriOf
  cases hs : uspGet search "seri".data with
  | none => simp
  | some v =>
    by_cases hv : v.isEmpty = true
    · have hveq : v = [] := by simpa using hv
      subst hveq
      simp
    · have hvne : v ≠ [] := by simpa using hv
      cases hd : decodeURIComponent v with
      | none => simp [hv, hd, hvne]
      | some d => simp [hv, hd]

theorem parse_none_iff (search : JStr) :
    parseURLParameters search = none ↔ seriOf search = none := by
  unfold parseURLParameters
  cases seriOf search <;> simp

theorem parse_some_elim {search : JStr} {ps : ParameterSet}
    (h : parseURLParameters search = some ps) :
    seriOf search = some ps.seri ∧ ps.bolum = bolumOf search := by
  unfold parseURLParameters at h
  cases hs : seriOf search with
  | none => rw [hs] at h; cases h
  | some s =>
    rw [hs] at h
    injection h with h'
    subst h'
    exact ⟨rfl, rfl⟩

theorem seriOf_some_none_iff (search : JStr) (s : Option JStr) (h : seriOf search = some s) :
    s = none ↔
      (uspGetRaw search "seri".data = none ∨ uspGetRaw search "seri".data = some []) := by
  unfold seriOf at h
  cases hs : uspGet search "seri".data with
  | none =>
    rw [hs] at h
    injection h with h'
    subst h'
    simp [(uspGet_none_iff search "seri".data).mp hs]
  | some v =>
    rw [hs] at h
    by_cases hv : v.isEmpty = true
    · have hveq : v = [] := by simpa using hv
      subst hveq
      simp only [List.isEmpty_nil, if_true] at h
      injection h with h'
      subst h'
      obtain ⟨rv, hrv, hfd⟩ := uspGetRaw_of_uspGet hs
      have hrvnil : rv = [] := (formDecode_eq_nil_iff rv).mp hfd
      subst hrvnil
      simp [hrv]
    · have hvne : v ≠ [] := by simpa using hv
      simp only [hv, Bool.false_eq_true, if_false] at h
      cases hd : decodeURIComponent v with
      | none => rw [hd] at h; cases h
      | some d =>
        rw [hd] at h
        injection h with h'
        subst h'
        obtain ⟨rv, hrv, hfd⟩ := uspGetRaw_of_uspGet hs
        have hrvne : rv ≠ [] := by
          intro hc
          subst hc
          exact hvne (by rw [← hfd]; rfl)
        simp [hrv, hrvne]

theorem bolumOf_none_iff (search : JStr) :
    bolumOf search = none ↔
      (uspGetRaw search "bolum".data = none ∨ uspGetRaw search "bolum".data = some []) := by
  unfold bolumOf
  cases hs : uspGet search "bolum".data with
  | none => simp [(uspGet_none_iff search "bolum".data).mp hs]
  | some v =>
    by_cases hv : v.isEmpty = true
    · have hveq : v = [] := by simpa using hv
      subst hveq
      obtain ⟨rv, hrv, hfd⟩ := uspGetRaw_of_uspGet hs
      have hrvnil : rv = [] := (formDecode_eq_nil_iff rv).mp hfd
      subst hrvnil
      simp [hrv]
    · have hvne : v ≠ [] := by simpa using hv
      obtain ⟨rv, hrv, hfd⟩ := uspGetRaw_of_uspGet hs
      have hrvne : rv ≠ [] := by
        intro hc
        subst hc
        exact hvne (by rw [← hfd]; rfl)
      simp [hv, hrv, hrvne]

theorem bolumOf_some (search : JStr) (v : JStr) (hs : uspGet search "bolum".data = some v)
    (hv : v ≠ []) : bolumOf search = some (parseInt10 v) := by
  unfold bolumOf
  rw [hs]
  simp [hv]

theorem parseInt10_nan_iff (v : JStr) : parseInt10 v = JSNum.nan ↔ hasIntLead v = false := by
  unfold parseInt10 hasIntLead
  by_cases hd :
      ((stripSignJs (v.dropWhile isJsSpace)).takeWhile fun c =>
        decide ('0' ≤ c ∧ c ≤ '9')).isEmpty = true
  · simp [hd]
  · simp [hd]

/-! ### Claim C7 -/

/-- Claim C7 counterexample: `parseURLParameters` is claimed never to fail, but
on `?seri=%25` the `URLSearchParams` layer decodes the value to a bare `%`,
and the second decoding pass (`decodeURIComponent`) then throws a `URIError`
(modelled as `none`). -/
theorem c7_parameter_extractor_counterexample :
    parseURLParameters "?seri=%25".data = none ∧
    uspGet "?seri=%25".data "seri".data = some ['%'] ∧
    decodeURIComponent ['%'] = none := by
  refine ⟨by decide, by decide, by decide⟩

/-- Claim C7 (amended): `series` is the `seri` value as decoded by
`URLSearchParams` and then percent-decoded a second time by
`decodeURIComponent`; the function throws a `URIError` exactly when that
second decode meets a malformed sequence in a non-empty once-decoded value
(so it is not total); otherwise `series` is absent exactly when the `seri`
key is missing or its raw value is empty, `chapter` is absent exactly when
the `bolum` key is missing or its raw value is empty, `chapter` is the
base-10 `parseInt` of the once-decoded `bolum` value when present, and a
present but non-numeric `bolum` value yields the `NaN` sentinel, not absent. -/
theorem c7_parameter_extractor (search : JStr) :
    (parseURLParameters search = none ↔
       ∃ v, uspGet search "seri".data = some v ∧ v ≠ [] ∧ decodeURIComponent v = none)
  ∧ (∀ ps, parseURLParameters search = some ps →
       (ps.seri = none ↔
          (uspGetRaw search "seri".data = none ∨ uspGetRaw search "seri".data = some []))
     ∧ (∀ v d, uspGet search "seri".data = some v → v ≠ [] →
          decodeURIComponent v = some d → ps.seri = some d)
     ∧ (ps.bolum = none ↔
          (uspGetRaw search "bolum".data = none ∨ uspGetRaw search "bolum".data = some []))
     ∧ (∀ v, uspGet search "bolum".data = some v → v ≠ [] →
          ps.bolum = some (parseInt10 v))
     ∧ (∀ v, uspGet search "bolum".data = some v → v ≠ [] → hasIntLead v = false →
          ps.bolum = some JSNum.nan)) := by
  refine ⟨?_, ?_⟩
  · rw [parse_none_iff]
    exact seriOf_eq_none_iff search
  · intro ps hps
    obtain ⟨hseri, hbolum⟩ := parse_some_elim hps
    refine ⟨seriOf_some_none_iff search ps.seri hseri, ?_, ?_, ?_, ?_⟩
    · intro v d hv hvne hd
      have hsv : seriOf search = some (some d) := by
        unfold seriOf
        rw [hv]
        simp [hvne, hd]
      rw [hseri] at hsv
      simpa using hsv

    · rw [hbolum]
      exact bolumOf_none_iff search
    · intro v hv hvne
      rw [hbolum]
      exact bolumOf_some search v hv hvne
    · intro v hv hvne hnan
      rw [hbolum, bolumOf_some search v hv hvne, (parseInt10_nan_iff v).mpr hnan]

/-- Witness for C7 at concrete query strings. -/
theorem c7_parameter_extractor_witness :
    (⟨some "ab".data, some (parseInt10 "7".data)⟩ : ParameterSet).seri = some "ab".data
  ∧ (⟨some "ab".data, some (parseInt10 "7".data)⟩ : ParameterSet).bolum =
      some (parseInt10 "7".data)
  ∧ (⟨none, some JSNum.nan⟩ : ParameterSet).bolum = some JSNum.nan :=
  ⟨((c7_parameter_extractor "?seri=ab&bolum=7".data).2
      ⟨some "ab".data, some (parseInt10 "7".data)⟩ (by decide)).2.1
      "ab".data "ab".data (by decide) (by decide) (by decide),
   ((c7_parameter_extractor "?seri=ab&bolum=7".data).2
      ⟨some "ab".data, some (parseInt10 "7".data)⟩ (by decide)).2.2.2.1
      "7".data (by decide) (by decide),
   ((c7_parameter_extractor "?bolum=abc".data).2
      ⟨none, some JSNum.nan⟩ (by decide)).2.2.2.2
      "abc".data (by decide) (by decide) (by decide)⟩

/-! ### Helper lemmas about the Tag Applier -/

/-- The position `setMetaTag` will write to: first `property` match, else
first `name` match (mirrors the two `querySelector` calls). -/
def targetIdx (head : List MetaElem) (k : JStr) : Option Nat :=
  match findIdxO (matchesProp k) head with
  | some i => some i
  | none => findIdxO (matchesName k) head

/-- The head holds, at the position `setMetaTag k` would write to, an element
whose content is `c`. -/
def tagGood (k c : JStr) (head : List MetaElem) : Prop :=
  ∃ i e, targetIdx head k = some i ∧ head[i]? = some e ∧ e.content = c

theorem length_setContentAt (h : List MetaElem) (i : Nat) (c : JStr) :
    (setContentAt h i c).length = h.length := by
  induction h generalizing i with
  | nil => rfl
  | cons e t ih =>
    cases i with
    | zero => rfl
    | succ n => simp [setContentAt, ih]

theorem map_elemShape_setContentAt (h : List MetaElem) (i : Nat) (c : JStr) :
    (setContentAt h i c).map elemShape = h.map elemShape := by
  induction h generalizing i with
  | nil => rfl
  | cons e t ih =>
    cases i with
    | zero => simp [setContentAt, elemShape]
    | succ n => simp [setContentAt, ih]

theorem getElem?_setContentAt_ne (h : List MetaElem) (i j : Nat) (c : JStr) (hij : i ≠ j) :
    (setContentAt h i c)[j]? = h[j]? := by
  induction h generalizing i j with
  | nil => rfl
  | cons e t ih =>
    cases i with
    | zero =>
      cases j with
      | zero => exact absurd rfl hij
      | succ m => simp [setContentAt]
    | succ n =>
      cases j with
      | zero => simp [setContentAt]
      | succ m =>
        simp only [setContentAt, List.getElem?_cons_succ]
        exact ih n m (fun hnm => hij (by rw [hnm]))

theorem getElem?_setContentAt_self {h : List MetaElem} {i : Nat} (c : JStr) {e : MetaElem}
    (he : h[i]? = some e) : (setContentAt h i c)[i]? = some { e with content := c } := by
  induction h generalizing i with
  | nil => simp at he
  | cons e0 t ih =>
    cases i with
    | zero =>
      simp only [List.getElem?_cons_zero, Option.some.injEq] at he
      subst he
      simp [setContentAt]
    | succ n =>
      simp only [List.getElem?_cons_succ] at he
      simp only [setContentAt, List.getElem?_cons_succ]
      exact ih he

theorem setContentAt_of_content_eq {h : List MetaElem} {i : Nat} {c : JStr} {e : MetaElem}
    (he : h[i]? = some e) (hc : e.content = c) : setContentAt h i c = h := by
  induction h generalizing i with
  | nil => rfl
  | cons e0 t ih =>
    cases i with
    | zero =>
      simp only [List.getElem?_cons_zero, Option.some.injEq] at he
      subst he
      subst hc
      rfl
    | succ n =>
      simp only [List.getElem?_cons_succ] at he
      simp only [setContentAt]
      rw [ih he]

theorem findIdxO_shape (p : AttrKind × JStr → Bool) :
    ∀ h1 h2 : List MetaElem, h1.map elemShape = h2.map elemShape →
      findIdxO (fun e => p (elemShape e)) h1 = findIdxO (fun e => p (elemShape e)) h2 := by
  intro h1
  induction h1 with
  | nil =>
    intro h2 hs
    cases h2 with
    | nil => rfl
    | cons e t => simp at hs
  | cons e1 t1 ih =>
    intro h2 hs
    cases h2 with
    | nil => simp at hs
    | cons e2 t2 =>
      simp only [List.map_cons, List.cons.injEq] at hs
      obtain ⟨hse, hst⟩ := hs
      simp only [findIdxO, hse, ih t2 hst]

theorem findIdxO_matchesProp_congr {h1 h2 : List MetaElem} (k : JStr)
    (hs : h1.map elemShape = h2.map elemShape) :
    findIdxO (matchesProp k) h1 = findIdxO (matchesProp k) h2 :=
  findIdxO_shape (shapeMatchesProp k) h1 h2 hs

theorem findIdxO_matchesName_congr {h1 h2 : List MetaElem} (k : JStr)
    (hs : h1.map elemShape = h2.map elemShape) :
    findIdxO (matchesName k) h1 = findIdxO (matchesName k) h2 :=
  findIdxO_shape (shapeMatchesName k) h1 h2 hs

theorem targetIdx_congr {h1 h2 : List MetaElem} (k : JStr)
    (hs : h1.map elemShape = h2.map elemShape) : targetIdx h1 k = targetIdx h2 k := by
  unfold targetIdx
  rw [findIdxO_matchesProp_congr k hs, findIdxO_matchesName_congr k hs]

theorem findIdxO_lt_length {p : MetaElem → Bool} {h : List MetaElem} {i : Nat}
    (hf : findIdxO p h = some i) : i < h.length := by
  induction h generalizing i with
  | nil => simp [findIdxO] at hf
  | cons e t ih =>
    simp only [findIdxO] at hf
    by_cases hp : p e = true
    · rw [if_pos hp] at hf
      injection hf with h'
      subst h'
      simp
    · rw [if_neg hp] at hf
      cases hfo : findIdxO p t with
      | none => rw [hfo] at hf; cases hf
      | some j =>
        rw [hfo] at hf
        injection hf with h'
        subst h'
        have := ih hfo
        simp only [List.length_cons]
        omega

theorem findIdxO_some_elem {p : MetaElem → Bool} {h : List MetaElem} {i : Nat}
    (hf : findIdxO p h = some i) : ∃ e, h[i]? = some e ∧ p e = true := by
  induction h generalizing i with
  | nil => simp [findIdxO] at hf
  | cons e t ih =>
    simp only [findIdxO] at hf
    by_cases hp : p e = true
    · rw [if_pos hp] at hf
      injection hf with h'
      subst h'
      exact ⟨e, by simp, hp⟩
    · rw [if_neg hp] at hf
      cases hfo : findIdxO p t with
      | none => rw [hfo] at hf; cases hf
      | some j =>
        rw [hfo] at hf
        injection hf with h'
        subst h'
        obtain ⟨e', he', hpe'⟩ := ih hfo
        exact ⟨e', by simpa using he', hpe'⟩

theorem matchesProp_key {k : JStr} {e : MetaElem} (h : matchesProp k e = true) : e.key = k := by
  simp only [matchesProp, shapeMatchesProp, elemShape, Bool.and_eq_true, beq_iff_eq] at h
  exact h.2

theorem matchesName_key {k : JStr} {e : MetaElem} (h : matchesName k e = true) : e.key = k := by
  simp only [matchesName, shapeMatchesName, elemShape, Bool.and_eq_true, beq_iff_eq] at h
  exact h.2

theorem targetIdx_some_key {h : List MetaElem} {k : JStr} {i : Nat}
    (ht : targetIdx h k = some i) : ∃ e, h[i]? = some e ∧ e.key = k := by
  unfold targetIdx at ht
  cases hp : findIdxO (matchesProp k) h with
  | some j =>
    rw [hp] at ht
    injection ht with h'
    subst h'
    obtain ⟨e, he, hpe⟩ := findIdxO_some_elem hp
    exact ⟨e, he, matchesProp_key hpe⟩
  | none =>
    rw [hp] at ht
    obtain ⟨e, he, hpe⟩ := findIdxO_some_elem ht
    exact ⟨e, he, matchesName_key hpe⟩

theorem targetIdx_lt_length {h : List MetaElem} {k : JStr} {i : Nat}
    (ht : targetIdx h k = some i) : i < h.length := by
  unfold targetIdx at ht
  cases hp : findIdxO (matchesProp k) h with
  | some j =>
    rw [hp] at ht
    injection ht with h'
    subst h'
    exact findIdxO_lt_length hp
  | none =>
    rw [hp] at ht
    exact findIdxO_lt_length ht

theorem findIdxO_append_some {p : MetaElem → Bool} {h : List MetaElem} {i : Nat}
    (l : List MetaElem) (hf : findIdxO p h = some i) : findIdxO p (h ++ l) = some i := by
  induction h generalizing i with
  | nil => simp [findIdxO] at hf
  | cons e t ih =>
    rw [List.cons_append]
    simp only [findIdxO] at hf ⊢
    by_cases hp : p e = true
    · rw [if_pos hp] at hf ⊢
      exact hf
    · rw [if_neg hp] at hf ⊢
      cases hfo : findIdxO p t with
      | none => rw [hfo] at hf; simp at hf
      | some j =>
        rw [hfo] at hf
        rw [ih hfo]
        exact hf

theorem findIdxO_append_none {p : MetaElem → Bool} {h : List MetaElem}
    (l : List MetaElem) (hf : findIdxO p h = none) :
    findIdxO p (h ++ l) = (findIdxO p l).map (· + h.length) := by
  induction h with
  | nil =>
    simp only [List.nil_append, List.length_nil]
    cases findIdxO p l <;> simp
  | cons e t ih =>
    rw [List.cons_append]
    simp only [findIdxO] at hf ⊢
    by_cases hp : p e = true
    · rw [if_pos hp] at hf
      simp at hf
    · rw [if_neg hp] at hf ⊢
      have hft : findIdxO p t = none := by
        cases hfo : findIdxO p t with
        | none => rfl
        | some j => rw [hfo] at hf; simp at hf
      rw [ih hft]
      cases hfl : findIdxO p l with
      | none => simp
      | some j =>
        simp only [Option.map_some']
        simp only [List.length_cons, Option.some.injEq]
        omega

theorem targetIdx_append_of_key_ne {h : List MetaElem} {k : JStr} {i : Nat}
    (e' : MetaElem) (ht : targetIdx h k = some i) (hk : e'.key ≠ k) :
    targetIdx (h ++ [e']) k = some i := by
  unfold targetIdx at ht ⊢
  have hke : (e'.key == k) = false := by simpa using hk
  cases hp : findIdxO (matchesProp k) h with
  | some j =>
    rw [hp] at ht
    rw [findIdxO_append_some [e'] hp]
    exact ht
  | none =>
    rw [hp] at ht
    have hpe : matchesProp k e' = false := by
      simp [matchesProp, shapeMatchesProp, elemShape, hke]
    have hp2 : findIdxO (matchesProp k) (h ++ [e']) = none := by
      rw [findIdxO_append_none [e'] hp]
      simp [findIdxO, hpe]
    rw [hp2, findIdxO_append_some [e'] ht]

theorem setMetaTag_eq_target (k c : JStr) (h : List MetaElem) :
    setMetaTag k c h =
      match targetIdx h k with
      | some i => setContentAt h i c
      | none => h ++ [newMetaElem k c] := by
  unfold setMetaTag targetIdx
  cases findIdxO (matchesProp k) h with
  | some i => rfl
  | none => cases findIdxO (matchesName k) h <;> rfl

theorem tagGood_setMetaTag (k c : JStr) (h : List MetaElem) :
    tagGood k c (setMetaTag k c h) := by
  rw [setMetaTag_eq_target]
  cases ht : targetIdx h k with
  | some i =>
    obtain ⟨e, he, hke⟩ := targetIdx_some_key ht
    refine ⟨i, { e with content := c }, ?_, ?_, rfl⟩
    · rw [targetIdx_congr k (map_elemShape_setContentAt h i c)]
      exact ht
    · exact getElem?_setContentAt_self c he
  | none =>
    refine ⟨h.length, newMetaElem k c, ?_, ?_, rfl⟩
    · unfold targetIdx at ht ⊢
      cases hp : findIdxO (matchesProp k) h with
      | some j =>
        rw [hp] at ht
        exact Option.noConfusion ht
      | none =>
        rw [hp] at ht
        replace ht : findIdxO (matchesName k) h = none := ht
        by_cases hog : "og:".data.isPrefixOf k = true
        · have hm : matchesProp k (newMetaElem k c) = true := by
            simp [matchesProp, shapeMatchesProp, elemShape, newMetaElem, hog]
          have hfp : findIdxO (matchesProp k) (h ++ [newMetaElem k c]) = some h.length := by
            rw [findIdxO_append_none [newMetaElem k c] hp]
            simp [findIdxO, hm]
          rw [hfp]
        · have hmp : matchesProp k (newMetaElem k c) = false := by
            simp [matchesProp, shapeMatchesProp, elemShape, newMetaElem, hog]
          have hmn : matchesName k (newMetaElem k c) = true := by
            simp [matchesName, shapeMatchesName, elemShape, newMetaElem, hog]
          have hfp : findIdxO (matchesProp k) (h ++ [newMetaElem k c]) = none := by
            rw [findIdxO_append_none [newMetaElem k c] hp]
            simp [findIdxO, hmp]
          have hfn : findIdxO (matchesName k) (h ++ [newMetaElem k c]) = some h.length := by
            rw [findIdxO_append_none [newMetaElem k c] ht]
            simp [findIdxO, hmn]
          rw [hfp, hfn]
    · rw [List.getElem?_append_right (Nat.le_refl h.length)]
      simp

theorem tagGood_setMetaTag_of_ne {k c k' c' : JStr} (hne : k' ≠ k) {h : List MetaElem}
    (hg : tagGood k c h) : tagGood k c (setMetaTag k' c' h) := by
  obtain ⟨i, e, ht, he, hc⟩ := hg
  rw [setMetaTag_eq_target]
  cases ht' : targetIdx h k' with
  | some j =>
    obtain ⟨e', he', hk'⟩ := targetIdx_some_key ht'
    obtain ⟨ek, hek, hkk⟩ := targetIdx_some_key ht
    have hee : ek = e := by
      rw [he] at hek
      injection hek with hv
      exact hv.symm
    have hij : j ≠ i := by
      intro hji
      subst hji
      have hv : e = e' := by
        rw [he] at he'
        injection he' 
      apply hne
      calc k' = e'.key := hk'.symm
        _ = e.key := by rw [hv]
        _ = ek.key := by rw [hee]
        _ = k := hkk
    refine ⟨i, e, ?_, ?_, hc⟩
    · rw [targetIdx_congr k (map_elemShape_setContentAt h j c')]
      exact ht
    · rw [getElem?_setContentAt_ne h j i c' hij]
      exact he
  | none =>
    refine ⟨i, e, ?_, ?_, hc⟩
    · exact targetIdx_append_of_key_ne (newMetaElem k' c') ht (by simpa [newMetaElem] using hne)
    · rw [List.getElem?_append_left (targetIdx_lt_length ht)]
      exact he

theorem setMetaTag_of_tagGood {k c : JStr} {h : List MetaElem} (hg : tagGood k c h) :
    setMetaTag k c h = h := by
  obtain ⟨i, e, ht, he, hc⟩ := hg
  rw [setMetaTag_eq_target, ht]
  exact setContentAt_of_content_eq he hc

theorem setMetaTags_cons (t : TagDefinition) (tags : List TagDefinition) (h : List MetaElem) :
    setMetaTags (t :: tags) h = setMetaTags tags (setMetaTag t.property t.content h) := rfl

theorem tagGood_setMetaTags_of_ne {k c : JStr} {tags : List TagDefinition}
    (hk : ∀ t ∈ tags, t.property ≠ k) {h : List MetaElem} (hg : tagGood k c h) :
    tagGood k c (setMetaTags tags h) := by
  induction tags generalizing h with
  | nil => exact hg
  | cons t ts ih =>
    rw [setMetaTags_cons]
    exact ih (fun t' ht' => hk t' (List.mem_cons_of_mem t ht'))
      (tagGood_setMetaTag_of_ne (hk t (List.mem_cons_self t ts)) hg)

theorem hasTarget_setMetaTag {h : List MetaElem} {k : JStr} (k' c' : JStr)
    (hh : (targetIdx h k).isSome = true) :
    (targetIdx (setMetaTag k' c' h) k).isSome = true := by
  rw [setMetaTag_eq_target]
  cases ht' : targetIdx h k' with
  | some j =>
    rw [targetIdx_congr k (map_elemShape_setContentAt h j c')]
    exact hh
  | none =>
    by_cases hkk : k' = k
    · subst hkk
      rw [ht'] at hh
      cases hh
    · cases hti : targetIdx h k with
      | none => rw [hti] at hh; cases hh
      | some i =>
        rw [targetIdx_append_of_key_ne (newMetaElem k' c') hti (by simpa [newMetaElem] using hkk)]
        rfl

theorem hasTarget_setMetaTags {h : List MetaElem} {k : JStr} (tags : List TagDefinition)
    (hh : (targetIdx h k).isSome = true) :
    (targetIdx (setMetaTags tags h) k).isSome = true := by
  induction tags generalizing h with
  | nil => exact hh
  | cons t ts ih =>
    rw [setMetaTags_cons]
    exact ih (hasTarget_setMetaTag t.property t.content hh)

theorem length_map_elemShape_eq {h1 h2 : List MetaElem}
    (hs : h1.map elemShape = h2.map elemShape) : h1.length = h2.length := by
  have := congrArg List.length hs
  simpa using this

theorem setMetaTags_congr (tags : List TagDefinition) :
    ∀ h1 h2 : List MetaElem, h1.map elemShape = h2.map elemShape →
      (∀ j, (∀ t ∈ tags, targetIdx h1 t.property ≠ some j) → h1[j]? = h2[j]?) →
      setMetaTags tags h1 = setMetaTags tags h2 := by
  induction tags with
  | nil =>
    intro h1 h2 hs hj
    exact List.ext_getElem? fun j => hj j (fun t ht => absurd ht (List.not_mem_nil t))
  | cons t ts ih =>
    intro h1 h2 hs hj
    rw [setMetaTags_cons, setMetaTags_cons]
    have htt := targetIdx_congr t.property hs
    cases ht1 : targetIdx h1 t.property with
    | some i =>
      have ht2 : targetIdx h2 t.property = some i := by rw [← htt]; exact ht1
      rw [setMetaTag_eq_target, ht1, setMetaTag_eq_target, ht2]
      apply ih
      · rw [map_elemShape_setContentAt, map_elemShape_setContentAt]
        exact hs
      · intro j hjt
        by_cases hji : j = i
        · subst hji
          obtain ⟨e1, he1, hk1⟩ := targetIdx_some_key ht1
          obtain ⟨e2, he2, hk2⟩ := targetIdx_some_key ht2
          rw [getElem?_setContentAt_self t.content he1,
              getElem?_setContentAt_self t.content he2]
          have hsh : elemShape e1 = elemShape e2 := by
            have hmap := congrArg (fun l => l[j]?) hs
            simp only [List.getElem?_map, he1, he2, Option.map_some'] at hmap
            injection hmap
          cases e1
          cases e2
          simp only [elemShape, Prod.mk.injEq] at hsh
          simp [hsh.1, hsh.2]
        · rw [getElem?_setContentAt_ne h1 i j t.content (fun hc => hji hc.symm),
              getElem?_setContentAt_ne h2 i j t.content (fun hc => hji hc.symm)]
          apply hj
          intro t' ht'
          rcases List.mem_cons.mp ht' with heq | hmem
          · subst heq
            rw [ht1]
            intro hcontra
            injection hcontra with hcontra
            exact hji hcontra.symm
          · have hthis := hjt t' hmem
            rw [targetIdx_congr t'.property (map_elemShape_setContentAt h1 i t.content)] at hthis
            exact hthis
    | none =>
      have ht2 : targetIdx h2 t.property = none := by rw [← htt]; exact ht1
      rw [setMetaTag_eq_target, ht1, setMetaTag_eq_target, ht2]
      have hlen : h1.length = h2.length := length_map_elemShape_eq hs
      apply ih
      · simp only [List.map_append, hs]
      · intro j hjt
        by_cases hjlen : j < h1.length
        · rw [List.getElem?_append_left hjlen, List.getElem?_append_left (hlen ▸ hjlen)]
          apply hj
          intro t' ht'
          rcases List.mem_cons.mp ht' with heq | hmem
          · subst heq
            rw [ht1]
            exact fun hcontra => Option.noConfusion hcontra
          · intro hcontra
            by_cases hkk : t'.property = t.property
            · rw [hkk, ht1] at hcontra
              cases hcontra
            · refine hjt t' hmem ?_
              exact targetIdx_append_of_key_ne (newMetaElem t.property t.content) hcontra
                (by simpa [newMetaElem] using fun hh => hkk hh.symm)
        · rw [List.getElem?_append_right (Nat.le_of_not_lt hjlen),
              List.getElem?_append_right (hlen ▸ Nat.le_of_not_lt hjlen)]
          rw [hlen]

/-- Running the same tag list twice on any head is the same as running it
once: the key idempotence fact behind the Tag Applier contract. -/
theorem setMetaTags_idem (tags : List TagDefinition) (h : List MetaElem) :
    setMetaTags tags (setMetaTags tags h) = setMetaTags tags h := by
  induction tags generalizing h with
  | nil => rfl
  | cons t ts ih =>
    rw [setMetaTags_cons t ts h]
    rw [setMetaTags_cons]
    have hgood : tagGood t.property t.content (setMetaTag t.property t.content h) :=
      tagGood_setMetaTag t.property t.content h
    by_cases hmem : ∃ t' ∈ ts, t'.property = t.property
    · have hht : (targetIdx (setMetaTags ts (setMetaTag t.property t.content h))
          t.property).isSome = true := by
        obtain ⟨i, e, hti, -, -⟩ := hgood
        exact hasTarget_setMetaTags ts (by rw [hti]; rfl)
      cases hti : targetIdx (setMetaTags ts (setMetaTag t.property t.content h))
          t.property with
      | none => rw [hti] at hht; cases hht
      | some i0 =>
        have hsame : setMetaTags ts (setMetaTag t.property t.content
              (setMetaTags ts (setMetaTag t.property t.content h))) =
            setMetaTags ts (setMetaTags ts (setMetaTag t.property t.content h)) := by
          apply setMetaTags_congr
          · rw [setMetaTag_eq_target, hti]
            exact map_elemShape_setContentAt _ i0 t.content
          · intro j hjt
            rw [setMetaTag_eq_target, hti] at hjt ⊢
            by_cases hji : j = i0
            · exfalso
              obtain ⟨t', hmem', hkey⟩ := hmem
              apply hjt t' hmem'
              rw [targetIdx_congr t'.property (map_elemShape_setContentAt _ i0 t.content),
                  hkey, hti, hji]
            · exact getElem?_setContentAt_ne _ i0 j t.content (fun hc => hji hc.symm)
        rw [hsame, ih]
    · push_neg at hmem
      have hgood2 : tagGood t.property t.content
          (setMetaTags ts (setMetaTag t.property t.content h)) :=
        tagGood_setMetaTags_of_ne hmem hgood
      rw [setMetaTag_of_tagGood hgood2, ih]

/-- Every tag of a duplicate-free tag list ends up present with its own value
after `setMetaTags`. -/
theorem setMetaTags_all_good (tags : List TagDefinition)
    (hp : tags.Pairwise (fun a b => a.property ≠ b.property)) (h : List MetaElem) :
    ∀ t ∈ tags, tagGood t.property t.content (setMetaTags tags h) := by
  induction tags generalizing h with
  | nil => intro t ht; exact absurd ht (List.not_mem_nil t)
  | cons t0 ts ih =>
    intro t ht
    rw [setMetaTags_cons]
    rcases List.mem_cons.mp ht with heq | hmem
    · subst heq
      have hkeys : ∀ t' ∈ ts, t'.property ≠ t.property := by
        intro t' ht'
        exact ((List.pairwise_cons.mp hp).1 t' ht').symm
      exact tagGood_setMetaTags_of_ne hkeys (tagGood_setMetaTag t.property t.content h)
    · exact ih (List.pairwise_cons.mp hp).2 (setMetaTag t0.property t0.content h) t hmem

/-- The ten keys produced by the Content Synthesizer are pairwise distinct. -/
theorem gen_keys_pairwise (params : ParameterSet) (sd : Option SeriesRecord)
    (pageUrl : JStr) :
    (generateOpenGraphContent params sd pageUrl).Pairwise
      (fun a b => a.property ≠ b.property) := by
  have hm : (generateOpenGraphContent params sd pageUrl).map TagDefinition.property =
      ["og:title".data, "og:description".data, "og:image".data, "og:url".data,
       "og:type".data, "og:site_name".data, "twitter:card".data, "twitter:title".data,
       "twitter:description".data, "twitter:image".data] := rfl
  have hpair : List.Pairwise (fun a b : JStr => a ≠ b)
      ((generateOpenGraphContent params sd pageUrl).map TagDefinition.property) := by
    rw [hm]
    decide
  exact List.Pairwise.of_map TagDefinition.property (fun a b hab => hab) hpair

/-! ### Claims C3 and C9 -/

/-- Claim C3: the Tag Applier is idempotent — applying the same TagDefinition
list twice leaves the head observably identical to applying it once (same
elements, same count, no duplicates); and when a tag with key og:title
already exists under a `property` attribute, re-applying with a new title
mutates that element's content in place (same position, same length) rather
than creating a second element. -/
theorem c3_tag_applier :
    (∀ (tags : List TagDefinition) (head : List MetaElem),
       setMetaTags tags (setMetaTags tags head) = setMetaTags tags head)
  ∧ (∀ (head : List MetaElem) (c : JStr) (i : Nat),
       findIdxO (matchesProp "og:title".data) head = some i →
       setMetaTag "og:title".data c head = setContentAt head i c ∧
       (setMetaTag "og:title".data c head).length = head.length) := by
  refine ⟨setMetaTags_idem, ?_⟩
  intro head c i hf
  have heq : setMetaTag "og:title".data c head = setContentAt head i c := by
    unfold setMetaTag
    rw [hf]
  refine ⟨heq, ?_⟩
  rw [heq]
  exact length_setContentAt head i c

/-- Witness for C3 on a concrete head and tag list. -/
theorem c3_tag_applier_witness :
    setMetaTag "og:title".data "New".data
        [⟨AttrKind.property, "og:title".data, "Old".data⟩] =
      setContentAt [⟨AttrKind.property, "og:title".data, "Old".data⟩] 0 "New".data ∧
    (setMetaTag "og:title".data "New".data
        [⟨AttrKind.property, "og:title".data, "Old".data⟩]).length =
      ([⟨AttrKind.property, "og:title".data, "Old".data⟩] : List MetaElem).length :=
  c3_tag_applier.2 [⟨AttrKind.property, "og:title".data, "Old".data⟩] "New".data 0 (by decide)

/-- Claim C9: each orchestrator run parses the parameters, resolves the
catalog only when a series is present, synthesizes the tag list and applies
it, synchronously; when parsing succeeds all 10 tags are written to the head
(each present with its value), and when an upstream failure occurs no tag is
written (the head is left unchanged, modelled by the absent result). -/
theorem c9_orchestrator (search pageUrl : JStr) (arsiv : Catalog) (head : List MetaElem) :
    (∀ params, parseURLParameters search = some params →
       initializeOpenGraphTags search pageUrl arsiv head =
         some (setMetaTags (generateOpenGraphContent params
             (if seriTruthy params.seri then getSeriesData arsiv (params.seri.getD [])
              else none) pageUrl) head) ∧
       (generateOpenGraphContent params
           (if seriTruthy params.seri then getSeriesData arsiv (params.seri.getD [])
            else none) pageUrl).length = 10 ∧
       ∀ t ∈ generateOpenGraphContent params
           (if seriTruthy params.seri then getSeriesData arsiv (params.seri.getD [])
            else none) pageUrl,
         tagGood t.property t.content
           (setMetaTags (generateOpenGraphContent params
               (if seriTruthy params.seri then getSeriesData arsiv (params.seri.getD [])
                else none) pageUrl) head))
  ∧ (parseURLParameters search = none →
       initializeOpenGraphTags search pageUrl arsiv head = none) := by
  constructor
  · intro params hp
    refine ⟨?_, rfl, ?_⟩
    · unfold initializeOpenGraphTags
      rw [hp]
    · intro t ht
      exact setMetaTags_all_good _ (gen_keys_pairwise params _ pageUrl) head t ht
  · intro hp
    unfold initializeOpenGraphTags
    rw [hp]

/-- Witness for C9 at concrete inputs: a successful run and an aborted run. -/
theorem c9_orchestrator_witness :
    initializeOpenGraphTags "".data "https://zebzetoon.vercel.app/".data none [] =
      some (setMetaTags
        (generateOpenGraphContent ⟨none, none⟩ none "https://zebzetoon.vercel.app/".data) [])
  ∧ initializeOpenGraphTags "?seri=%25".data "u".data none [] = none :=
  ⟨((c9_orchestrator "".data "https://zebzetoon.vercel.app/".data none []).1
      ⟨none, none⟩ (by decide)).1,
   (c9_orchestrator "?seri=%25".data "u".data none []).2 (by decide)⟩

end OgMeta
